import Mathlib

/-!
Verification of the diffy git core: shallow embedding of the
merge/rebase state machine, the conflict-marker parser, the commit
graph layout engine, and the diff/patch synthesizer
(src/src-tauri/src/git/{merge,graph,diff}.rs), with theorems settling
the specification claims.
-/

set_option maxHeartbeats 1000000

/-! ## Tool invocation model

The rebase/merge actions shell out to the external `git` tool and then
classify its exit status and combined stderr+stdout output.  We model
one invocation's result as a record; the Rust `output.status.success()`
check is the `success` flag.
-/

/-- Result of one external `git` subprocess invocation. -/
structure ToolOutput where
  success : Bool
  stdout : String
  stderr : String
deriving DecidableEq, Repr

/-- Substring test, modelling Rust `str::contains`. -/
def contains_substr (hay needle : String) : Bool :=
  decide (needle.toList <:+: hay.toList)

/-- Mirrors `continue_rebase` (merge.rs): re-derives the conflicting
files from repository status first, refusing with an error when any
remain; otherwise classifies the `git rebase --continue` output. -/
def continue_rebase (conflicting_files : List String) (tool : ToolOutput) :
    Except String String :=
  if !conflicting_files.isEmpty then
    Except.error ("Cannot continue rebase: " ++ toString conflicting_files.length ++
      " file(s) still have conflicts")
  else if tool.success then
    Except.ok tool.stdout.trim
  else
    let combined := tool.stderr ++ tool.stdout
    if contains_substr combined "CONFLICT" || contains_substr combined "could not apply" then
      Except.error "Rebase has more conflicts that need to be resolved"
    else
      Except.error ("git rebase --continue failed: " ++ combined.trim)

/-- Mirrors `skip_rebase` (merge.rs): note that the source runs
`git rebase --skip` directly, without querying the repository status
for conflicting files first; the repository's conflict list (available
to the function through `repo_path`) is never consulted. -/
def skip_rebase (_conflicting_files : List String) (tool : ToolOutput) :
    Except String String :=
  if tool.success then
    Except.ok "Skipped commit successfully"
  else
    let combined := tool.stderr ++ tool.stdout
    if contains_substr combined "CONFLICT" || contains_substr combined "could not apply" then
      Except.error "Rebase has conflicts that need to be resolved"
    else
      Except.error ("git rebase --skip failed: " ++ combined.trim)

/-- Mirrors `handle_rebase_continue_output` (merge.rs). -/
def handle_rebase_continue_output (tool : ToolOutput) : Except String String :=
  if tool.success then
    Except.ok tool.stdout.trim
  else
    let combined := tool.stderr ++ tool.stdout
    if contains_substr combined "CONFLICT" || contains_substr combined "could not apply" then
      Except.error "Rebase has more conflicts that need to be resolved"
    else if contains_substr combined "Stopped at" || contains_substr combined "You can amend" then
      Except.ok "Rebase continued, stopped for editing"
    else
      Except.error ("git rebase --continue failed: " ++ combined.trim)

/-- Mirrors `continue_interactive_rebase` (merge.rs): the conflict
pre-check, then the shared output classification.  The optional
message only selects which editor script environment the subprocess
gets; it does not change the result classification. -/
def continue_interactive_rebase (conflicting_files : List String)
    (_message : Option String) (tool : ToolOutput) : Except String String :=
  if !conflicting_files.isEmpty then
    Except.error ("Cannot continue rebase: " ++ toString conflicting_files.length ++
      " file(s) still have conflicts")
  else
    handle_rebase_continue_output tool

/-- Mirrors `continue_merge` (merge.rs): conflict pre-check, then
`git commit --no-edit` output handling. -/
def continue_merge (conflicting_files : List String) (tool : ToolOutput) :
    Except String String :=
  if !conflicting_files.isEmpty then
    Except.error ("Cannot continue merge: " ++ toString conflicting_files.length ++
      " file(s) still have conflicts")
  else if tool.success then
    Except.ok tool.stdout.trim
  else
    Except.error ("Failed to complete merge: " ++ tool.stderr.trim ++
      (if !tool.stdout.isEmpty then "\n" ++ tool.stdout.trim else ""))

/-! ## Interactive rebase todo rendering -/

/-- Mirrors `RebaseTodoAction` (merge.rs). -/
inductive RebaseTodoAction where
  | pick
  | reword
  | edit
  | squash
  | fixup
  | drop
deriving DecidableEq, Repr

/-- Mirrors `RebaseTodoAction::to_git_command`. -/
def RebaseTodoAction.to_git_command : RebaseTodoAction → String
  | .pick => "pick"
  | .reword => "reword"
  | .edit => "edit"
  | .squash => "squash"
  | .fixup => "fixup"
  | .drop => "drop"

/-- Mirrors `InteractiveRebasePlanEntry` (merge.rs). -/
structure InteractiveRebasePlanEntry where
  commit_id : String
  action : RebaseTodoAction
  new_message : Option String
deriving DecidableEq, Repr

/-- The short id computed inline in `start_interactive_rebase`:
`&entry.commit_id[..7]` when longer than 7, else the whole id. -/
def short_commit_id (id : String) : String :=
  if id.length > 7 then String.mk (id.toList.take 7) else id

/-- The todo-content accumulation loop of `start_interactive_rebase`
(merge.rs): `todo_content.push_str(&format!("{} {} \n", ...))` per
plan entry, in plan order. -/
def render_todo (plan : List InteractiveRebasePlanEntry) : String :=
  plan.foldl
    (fun acc e =>
      acc ++ (e.action.to_git_command ++ " " ++ short_commit_id e.commit_id ++ " \n"))
    ""

/-- The plan-validation and todo-rendering part of
`start_interactive_rebase` (merge.rs, lines 356-378): an empty plan is
rejected, otherwise the todo content handed to the sequence editor
script is `render_todo plan`. -/
def start_interactive_rebase_todo (plan : List InteractiveRebasePlanEntry) :
    Except String String :=
  if plan.isEmpty then
    Except.error "Rebase plan cannot be empty"
  else
    Except.ok (render_todo plan)

/-- Spec-side rendering of the todo lines, following the amended claim
wording: one line per entry in plan order, each line being the action
keyword, a single space, the commit id truncated to its first 7
characters, and a trailing space before the newline. -/
def todo_spec : List InteractiveRebasePlanEntry → String
  | [] => ""
  | e :: rest =>
      e.action.to_git_command ++ " " ++ String.mk (e.commit_id.toList.take 7) ++ " \n" ++
        todo_spec rest

theorem short_commit_id_eq_take (id : String) :
    short_commit_id id = String.mk (id.toList.take 7) := by
  unfold short_commit_id
  split
  · rfl
  · rename_i h
    have hle : id.toList.length ≤ 7 := Nat.le_of_not_lt h
    rw [List.take_of_length_le hle]
    rfl

theorem render_todo_go (plan : List InteractiveRebasePlanEntry) (init : String) :
    plan.foldl
      (fun acc e =>
        acc ++ (e.action.to_git_command ++ " " ++ short_commit_id e.commit_id ++ " \n"))
      init = init ++ todo_spec plan := by
  induction plan generalizing init with
  | nil => simp [todo_spec]
  | cons e rest ih =>
      rw [List.foldl_cons, ih]
      simp only [todo_spec, short_commit_id_eq_take, String.append_assoc]

/-- C5 counterexample: at the spec's own scenario plan the rendered
todo content carries a trailing space after each short commit id, so
the lines are not exactly the action keyword, one space, and the
7-character short id. -/
theorem C5_todo_counterexample :
    render_todo
        [⟨"1111111111", RebaseTodoAction.pick, none⟩,
         ⟨"2222222222", RebaseTodoAction.squash, none⟩,
         ⟨"3333333333", RebaseTodoAction.reword, some "new msg"⟩] =
      "pick 1111111 \nsquash 2222222 \nreword 3333333 \n" ∧
    "pick 1111111 \nsquash 2222222 \nreword 3333333 \n" ≠
      "pick 1111111\nsquash 2222222\nreword 3333333\n" := by
  constructor
  · rfl
  · decide

/-- C5 (amended): for every non-empty plan, the rendered todo content
is one line per entry in plan order, each line being the action
keyword, a single space, the commit id truncated to its first 7
characters, and a trailing space before the newline. -/
theorem C5_todo_rendering :
    ∀ (plan : List InteractiveRebasePlanEntry), plan ≠ [] →
      start_interactive_rebase_todo plan = Except.ok (todo_spec plan) := by
  intro plan hne
  unfold start_interactive_rebase_todo
  rw [if_neg (by simpa [List.isEmpty_iff] using hne)]
  unfold render_todo
  rw [render_todo_go]
  cases plan with
  | nil => cases hne rfl
  | cons e rest => simp

/-- C5 witness: the spec scenario evaluated through the theorem. -/
theorem C5_todo_rendering_witness :
    start_interactive_rebase_todo
        [⟨"1111111111", RebaseTodoAction.pick, none⟩,
         ⟨"2222222222", RebaseTodoAction.squash, none⟩,
         ⟨"3333333333", RebaseTodoAction.reword, some "new msg"⟩] =
      Except.ok "pick 1111111 \nsquash 2222222 \nreword 3333333 \n" := by
  have h := C5_todo_rendering
      [⟨"1111111111", RebaseTodoAction.pick, none⟩,
       ⟨"2222222222", RebaseTodoAction.squash, none⟩,
       ⟨"3333333333", RebaseTodoAction.reword, some "new msg"⟩]
      (by decide)
  rw [h]
  rfl

/-- C1 counterexample: `skip_rebase` does not re-derive the
conflicting files first — with a non-empty conflict list it still
reaches the external tool and reports its success, instead of
returning a conflict error. -/
theorem C1_skip_rebase_counterexample :
    (["file.txt"] : List String) ≠ [] ∧
    skip_rebase ["file.txt"] ⟨true, "", ""⟩ = Except.ok "Skipped commit successfully" := by
  constructor
  · decide
  · rfl

/-- C1 (amended): every continue action on an in-progress merge or
rebase (`continue_rebase`, `continue_interactive_rebase`,
`continue_merge`) first re-derives the conflicting files and, when any
remain, returns a descriptive conflict error whose value is
independent of the external tool's outcome (the tool is never
consulted); `skip_rebase` is exempt — it invokes the tool directly. -/
theorem C1_continue_actions_refuse_on_conflicts :
    ∀ (files : List String) (t t' : ToolOutput) (msg : Option String), files ≠ [] →
      (continue_rebase files t =
          Except.error ("Cannot continue rebase: " ++ toString files.length ++
            " file(s) still have conflicts") ∧
        continue_rebase files t = continue_rebase files t') ∧
      (continue_interactive_rebase files msg t =
          Except.error ("Cannot continue rebase: " ++ toString files.length ++
            " file(s) still have conflicts") ∧
        continue_interactive_rebase files msg t = continue_interactive_rebase files msg t') ∧
      (continue_merge files t =
          Except.error ("Cannot continue merge: " ++ toString files.length ++
            " file(s) still have conflicts") ∧
        continue_merge files t = continue_merge files t') := by
  intro files t t' msg hne
  have hfalse : files.isEmpty = false := by simpa [List.isEmpty_iff] using hne
  refine ⟨⟨?_, ?_⟩, ⟨?_, ?_⟩, ⟨?_, ?_⟩⟩ <;>
    simp [continue_rebase, continue_interactive_rebase, continue_merge, hfalse]

/-- C1 witness: a concrete conflicted state refused by all three
continue actions. -/
theorem C1_continue_actions_refuse_on_conflicts_witness :
    continue_rebase ["a.txt"] ⟨true, "", ""⟩ =
      Except.error ("Cannot continue rebase: " ++ toString (["a.txt"] : List String).length ++
        " file(s) still have conflicts") ∧
    continue_merge ["a.txt"] ⟨true, "", ""⟩ =
      Except.error ("Cannot continue merge: " ++ toString (["a.txt"] : List String).length ++
        " file(s) still have conflicts") := by
  have h := C1_continue_actions_refuse_on_conflicts ["a.txt"] ⟨true, "", ""⟩
      ⟨false, "boom", ""⟩ none (by decide)
  exact ⟨h.1.1, h.2.2.1⟩

/-! ## Diff model and patch synthesizer

`generate_untracked_file_patch` and `count_file_lines` (diff.rs) work
on the raw bytes of a file read from the working directory.  We model
the bytes as a `List Nat` and the library collaborators by executable
functions: `utf8_decode` models `std::str::from_utf8` (standard UTF-8
validation: rejects overlong forms, surrogates and values above
U+10FFFF), and `rust_lines` models Rust's `str::lines` (split on a
line feed, the final line terminator optional, one carriage return
stripped from the end of a line whose line feed was consumed).
-/

/-- Standard UTF-8 decoder: `some` with the decoded characters exactly
when the byte list is valid UTF-8, modelling `std::str::from_utf8`. -/
def utf8_decode : List Nat → Option (List Char)
  | [] => some []
  | b :: bs =>
    if b < 0x80 then
      (utf8_decode bs).map (fun cs => Char.ofNat b :: cs)
    else if b < 0xC2 then none
    else if b ≤ 0xDF then
      match bs with
      | b2 :: bs2 =>
        if 0x80 ≤ b2 ∧ b2 ≤ 0xBF then
          (utf8_decode bs2).map (fun cs => Char.ofNat ((b - 0xC0) * 0x40 + (b2 - 0x80)) :: cs)
        else none
      | [] => none
    else if b ≤ 0xEF then
      match bs with
      | b2 :: b3 :: bs3 =>
        if (if b = 0xE0 then 0xA0 else 0x80) ≤ b2 ∧ b2 ≤ (if b = 0xED then 0x9F else 0xBF) ∧
            0x80 ≤ b3 ∧ b3 ≤ 0xBF then
          (utf8_decode bs3).map (fun cs =>
            Char.ofNat ((b - 0xE0) * 0x1000 + (b2 - 0x80) * 0x40 + (b3 - 0x80)) :: cs)
        else none
      | _ => none
    else if b ≤ 0xF4 then
      match bs with
      | b2 :: b3 :: b4 :: bs4 =>
        if (if b = 0xF0 then 0x90 else 0x80) ≤ b2 ∧ b2 ≤ (if b = 0xF4 then 0x8F else 0xBF) ∧
            0x80 ≤ b3 ∧ b3 ≤ 0xBF ∧ 0x80 ≤ b4 ∧ b4 ≤ 0xBF then
          (utf8_decode bs4).map (fun cs =>
            Char.ofNat ((b - 0xF0) * 0x40000 + (b2 - 0x80) * 0x1000 +
              (b3 - 0x80) * 0x40 + (b4 - 0x80)) :: cs)
        else none
      | _ => none
    else none

/-- Drop one carriage return that immediately preceded a consumed line
feed; `acc` holds the line's characters in reverse. -/
def strip_last_cr (acc : List Char) : List Char :=
  match acc with
  | '\r' :: t => t
  | _ => acc

/-- Accumulator loop for `rust_lines`. -/
def rust_lines_aux (acc : List Char) : List Char → List (List Char)
  | [] => if acc.isEmpty then [] else [acc.reverse]
  | c :: cs =>
    if c = '\n' then
      (strip_last_cr acc).reverse :: rust_lines_aux [] cs
    else
      rust_lines_aux (c :: acc) cs

/-- Rust `str::lines` over a character list. -/
def rust_lines (cs : List Char) : List (List Char) :=
  rust_lines_aux [] cs

/-- Mirrors `generate_untracked_file_patch` (diff.rs, lines 189-246)
after the filesystem read: a binary stub for bytes containing NUL or
invalid UTF-8, a bare file header for an empty file, and otherwise a
synthetic `@@ -0,0 +1,N @@` hunk with every line prefixed by `+`. -/
def generate_untracked_file_patch (path : String) (bytes : List Nat) : String :=
  let is_binary := bytes.contains 0 || (utf8_decode bytes).isNone
  if is_binary then
    ("diff --git a/" ++ path ++ " b/" ++ path ++ "\nnew file mode 100644\n--- /dev/null\n+++ b/" ++
        path ++ "\n") ++
      ("Binary files /dev/null and b/" ++ path ++ " differ\n")
  else
    let content := (utf8_decode bytes).getD []
    let lines := (rust_lines content).map String.mk
    let line_count := lines.length
    if line_count = 0 then
      "diff --git a/" ++ path ++ " b/" ++ path ++ "\nnew file mode 100644\n--- /dev/null\n+++ b/" ++
        path ++ "\n"
    else
      ("diff --git a/" ++ path ++ " b/" ++ path ++ "\nnew file mode 100644\n--- /dev/null\n+++ b/" ++
          path ++ "\n") ++
        ("@@ -0,0 +1," ++ toString line_count ++ " @@\n") ++
        String.join (lines.map (fun l => "+" ++ l ++ "\n"))

/-- Mirrors `count_file_lines` (diff.rs, lines 370-401) after the
filesystem read: binary content counts as no additions, text content
counts its lines as additions with zero deletions. -/
def count_file_lines (bytes : List Nat) : Nat × Nat :=
  if bytes.contains 0 then (0, 0)
  else
    match utf8_decode bytes with
    | some content => ((rust_lines content).length, 0)
    | none => (0, 0)

/-- C4: the manually synthesized patch for an untracked file is a
binary stub ending in "Binary files /dev/null and b/<path> differ" for
NUL-containing or non-UTF-8 bytes; only the file header for an empty
file; and otherwise the header, the hunk header `@@ -0,0 +1,N @@`, and
exactly the N lines each prefixed with `+`, with `count_file_lines`
reporting additions = N and deletions = 0. -/
theorem C4_untracked_patch (path : String) (bytes : List Nat) :
    (bytes.contains 0 = true ∨ utf8_decode bytes = none →
      ∃ hdr, generate_untracked_file_patch path bytes =
        hdr ++ ("Binary files /dev/null and b/" ++ path ++ " differ\n")) ∧
    (bytes = [] →
      generate_untracked_file_patch path bytes =
        "diff --git a/" ++ path ++ " b/" ++ path ++
          "\nnew file mode 100644\n--- /dev/null\n+++ b/" ++ path ++ "\n") ∧
    (∀ content, bytes.contains 0 = false → utf8_decode bytes = some content →
      rust_lines content ≠ [] →
      generate_untracked_file_patch path bytes =
        ("diff --git a/" ++ path ++ " b/" ++ path ++
            "\nnew file mode 100644\n--- /dev/null\n+++ b/" ++ path ++ "\n") ++
          ("@@ -0,0 +1," ++ toString (rust_lines content).length ++ " @@\n") ++
          String.join ((rust_lines content).map (fun l => "+" ++ String.mk l ++ "\n")) ∧
      count_file_lines bytes = ((rust_lines content).length, 0)) := by
  refine ⟨?_, ?_, ?_⟩
  · intro h
    refine ⟨"diff --git a/" ++ path ++ " b/" ++ path ++
      "\nnew file mode 100644\n--- /dev/null\n+++ b/" ++ path ++ "\n", ?_⟩
    have hbin : (bytes.contains 0 || (utf8_decode bytes).isNone) = true := by
      rcases h with h | h
      · rw [h, Bool.true_or]
      · rw [h, Option.isNone_none, Bool.or_true]
    unfold generate_untracked_file_patch
    rw [hbin]
    rfl
  · intro h
    subst h
    rfl
  · intro content h0 hdec hne
    have hlen : ¬(rust_lines content).length = 0 := by
      simpa [List.length_eq_zero] using hne
    constructor
    · unfold generate_untracked_file_patch
      rw [h0, hdec]
      simp only [Option.isNone_some, Bool.or_false, Bool.false_eq_true, if_false,
        Option.getD_some, List.length_map, List.map_map, Function.comp_def,
        if_neg hlen]
    · unfold count_file_lines
      rw [if_neg (fun hc => absurd (h0 ▸ hc) (by decide)), hdec]

/-- C4 witness: the three branches at concrete inputs — a NUL byte, an
empty file, and the two-line text file "a\nb". -/
theorem C4_untracked_patch_witness :
    (∃ hdr, generate_untracked_file_patch "bin.dat" [0] =
      hdr ++ ("Binary files /dev/null and b/bin.dat differ\n")) ∧
    generate_untracked_file_patch "empty.txt" [] =
      "diff --git a/empty.txt b/empty.txt" ++
        "\nnew file mode 100644\n--- /dev/null\n+++ b/empty.txt\n" ∧
    generate_untracked_file_patch "a.txt" [97, 10, 98] =
      ("diff --git a/a.txt b/a.txt\nnew file mode 100644\n--- /dev/null\n+++ b/a.txt\n") ++
        ("@@ -0,0 +1," ++ toString (rust_lines ['a', '\n', 'b']).length ++ " @@\n") ++
        String.join ((rust_lines ['a', '\n', 'b']).map (fun l => "+" ++ String.mk l ++ "\n")) ∧
    count_file_lines [97, 10, 98] = ((rust_lines ['a', '\n', 'b']).length, 0) := by
  have h1 := (C4_untracked_patch "bin.dat" [0]).1 (Or.inl (by decide))
  have h2 := (C4_untracked_patch "empty.txt" []).2.1 rfl
  have h3 := (C4_untracked_patch "a.txt" [97, 10, 98]).2.2 ['a', '\n', 'b']
    (by decide) (by decide) (by decide)
  exact ⟨h1, h2.trans (by decide), h3.1.trans (by decide), h3.2⟩

/-! ## Per-file change record construction -/

/-- Mirrors `git2::Delta` as classified in `diff_to_unified`. -/
inductive DeltaStatus where
  | added
  | deleted
  | modified
  | renamed
  | copied
  | typechange
  | untracked
  | other
deriving DecidableEq, Repr

/-- One side of a `git2::DiffDelta`: path, content oid, POSIX mode and
binary flag, as exposed by the library collaborator. -/
structure DeltaFile where
  path : Option String
  oid : String
  mode : Nat
  is_binary : Bool
deriving DecidableEq, Repr

/-- A structural diff entry from the library collaborator. -/
structure DiffDelta where
  status : DeltaStatus
  old_file : DeltaFile
  new_file : DeltaFile
deriving DecidableEq, Repr

/-- Mirrors `DiffFile` (diff.rs). -/
structure DiffFile where
  path : String
  old_path : Option String
  status : String
  additions : Nat
  deletions : Nat
  is_binary : Bool
  old_mode : Option Nat
  new_mode : Option Nat
  similarity : Option Nat
  is_symlink : Bool
  is_submodule : Bool
deriving DecidableEq, Repr

/-- Mirrors `is_symlink_mode` (diff.rs). -/
def is_symlink_mode (mode : Nat) : Bool :=
  mode &&& 0o170000 == 0o120000

/-- Mirrors `is_submodule_mode` (diff.rs). -/
def is_submodule_mode (mode : Nat) : Bool :=
  mode &&& 0o170000 == 0o160000

/-- The per-delta record construction of `diff_to_unified` (diff.rs,
lines 264-358).  `patch_stats` is the line-stat result of
`git2::Patch::from_diff` when the library produced a patch;
`untracked_bytes` is the working-directory content read for the
untracked fallback. -/
def diff_to_unified_file (delta : DiffDelta) (patch_stats : Option (Nat × Nat))
    (untracked_bytes : List Nat) : DiffFile :=
  let path := (delta.new_file.path.orElse (fun _ => delta.old_file.path)).getD ""
  let old_path :=
    if delta.status = DeltaStatus.renamed ∨ delta.status = DeltaStatus.copied then
      delta.old_file.path
    else none
  let status :=
    match delta.status with
    | .added => "A"
    | .deleted => "D"
    | .modified => "M"
    | .renamed => "R"
    | .copied => "C"
    | .typechange => "T"
    | .untracked => "?"
    | .other => "?"
  let stats :=
    match patch_stats with
    | some s => s
    | none =>
      if delta.status = DeltaStatus.untracked then count_file_lines untracked_bytes
      else (0, 0)
  let old_mode_raw := delta.old_file.mode
  let new_mode_raw := delta.new_file.mode
  { path := path
    old_path := old_path
    status := status
    additions := stats.1
    deletions := stats.2
    is_binary := delta.old_file.is_binary || delta.new_file.is_binary
    old_mode := if old_mode_raw ≠ 0 then some old_mode_raw else none
    new_mode := if new_mode_raw ≠ 0 then some new_mode_raw else none
    similarity :=
      if delta.status = DeltaStatus.renamed ∨ delta.status = DeltaStatus.copied then
        if delta.old_file.oid = delta.new_file.oid then some 100 else some 50
      else none
    is_symlink := is_symlink_mode old_mode_raw || is_symlink_mode new_mode_raw
    is_submodule := is_submodule_mode old_mode_raw || is_submodule_mode new_mode_raw }

/-- C8: for every change record produced from a delta whose old-file
path is populated (as the library guarantees for rename and copy
deltas), the record's `old_path` is set if and only if its status is
"R" (renamed) or "C" (copied). -/
theorem C8_old_path_iff_rename_copy (delta : DiffDelta)
    (patch_stats : Option (Nat × Nat)) (untracked_bytes : List Nat)
    (h : delta.old_file.path.isSome = true) :
    ((diff_to_unified_file delta patch_stats untracked_bytes).old_path.isSome = true ↔
      ((diff_to_unified_file delta patch_stats untracked_bytes).status = "R" ∨
        (diff_to_unified_file delta patch_stats untracked_bytes).status = "C")) := by
  cases hs : delta.status <;>
    simp [diff_to_unified_file, hs, h]

/-- C8 witness: a concrete renamed delta with its old path present. -/
theorem C8_old_path_iff_rename_copy_witness :
    ((diff_to_unified_file
        ⟨DeltaStatus.renamed, ⟨some "old.txt", "aaaa", 0o100644, false⟩,
          ⟨some "new.txt", "aaaa", 0o100644, false⟩⟩ (some (1, 2)) []).old_path.isSome = true ↔
      ((diff_to_unified_file
          ⟨DeltaStatus.renamed, ⟨some "old.txt", "aaaa", 0o100644, false⟩,
            ⟨some "new.txt", "aaaa", 0o100644, false⟩⟩ (some (1, 2)) []).status = "R" ∨
        (diff_to_unified_file
            ⟨DeltaStatus.renamed, ⟨some "old.txt", "aaaa", 0o100644, false⟩,
              ⟨some "new.txt", "aaaa", 0o100644, false⟩⟩ (some (1, 2)) []).status = "C")) :=
  C8_old_path_iff_rename_copy _ _ _ (by decide)

/-! ## Commit graph layout engine

`build_commit_graph` (graph.rs) receives the ordered window of commit
ids; each commit's parent ids come from the repository.  We model the
input as the ordered list of `(commit id, parent ids)` pairs.  The
Rust iterator method `position` is modelled by `position`; the
`HashMap` from commit id to row (inserted in order, later inserts
overwriting) is modelled by `commit_to_row`.
-/

/-- Mirrors `GraphConnection` (graph.rs). -/
structure GraphConnection where
  from_column : Nat
  to_column : Nat
  to_row : Nat
  is_merge : Bool
deriving DecidableEq, Repr

/-- Mirrors `GraphNode` (graph.rs). -/
structure GraphNode where
  commit_id : String
  column : Nat
  connections : List GraphConnection
deriving DecidableEq, Repr

/-- Mirrors `CommitGraph` (graph.rs). -/
structure CommitGraph where
  nodes : List GraphNode
  max_columns : Nat
deriving DecidableEq, Repr

/-- Rust `Iterator::position`: index of the first element satisfying
the test. -/
def position {α : Type} (p : α → Bool) : List α → Option Nat
  | [] => none
  | a :: l => if p a then some 0 else (position p l).map (· + 1)

/-- Mirrors `find_column_for_commit` (graph.rs): the column reserving
the id if any, else the first free column, else a newly pushed
column.  Returns the chosen index along with the possibly grown column
vector. -/
def find_column_for_commit (active : List (Option String)) (id : String) :
    Nat × List (Option String) :=
  match position (fun c => c == some id) active with
  | some i => (i, active)
  | none =>
    match position Option.isNone active with
    | some i => (i, active)
    | none => (active.length, active ++ [none])

/-- Mirrors `find_or_create_column` (graph.rs). -/
def find_or_create_column (active : List (Option String)) (id : String) :
    Nat × List (Option String) :=
  match position (fun c => c == some id) active with
  | some i => (i, active)
  | none =>
    match position Option.isNone active with
    | some i => (i, active.set i (some id))
    | none => (active.length, active ++ [some id])

/-- The commit-id-to-row map of `build_commit_graph`: rows are
inserted in order, so a duplicated id keeps its last row. -/
def commit_to_row (ids : List String) (id : String) : Option Nat :=
  match position (fun x => x == id) ids.reverse with
  | some j => some (ids.length - 1 - j)
  | none => none

/-- The parent loop of `build_commit_graph` (graph.rs, lines 71-100):
converge to an already-reserved column, continue the current column
for a first parent, or allocate a column for a merge parent; emit a
connection only when the parent is in the input window. -/
def process_parents (ids : List String) (column : Nat) :
    Nat → List (Option String) → List String → List GraphConnection × List (Option String)
  | _, active, [] => ([], active)
  | i, active, pid :: rest =>
    let step : Nat × List (Option String) :=
      match position (fun c => c == some pid) active with
      | some c => (c, active)
      | none =>
        if i = 0 then (column, active.set column (some pid))
        else find_or_create_column active pid
    let tail := process_parents ids column (i + 1) step.2 rest
    match commit_to_row ids pid with
    | some r => (GraphConnection.mk column step.1 r (decide (0 < i)) :: tail.1, tail.2)
    | none => tail

/-- The trailing-column compaction of `build_commit_graph`
(graph.rs, lines 111-113). -/
def drop_trailing_free (active : List (Option String)) : List (Option String) :=
  (active.reverse.dropWhile Option.isNone).reverse

/-- The main loop of `build_commit_graph` over the windowed commits. -/
def build_graph_go (ids : List String) :
    List (Option String) → List (String × List String) → List GraphNode
  | _, [] => []
  | active, (cid, parents) :: rest =>
    let found := find_column_for_commit active cid
    let active2 :=
      if found.1 < found.2.length then found.2.set found.1 none else found.2
    let pp := process_parents ids found.1 0 active2 parents
    GraphNode.mk cid found.1 pp.1 :: build_graph_go ids (drop_trailing_free pp.2) rest

/-- Mirrors `build_commit_graph` (graph.rs): empty input gives the
empty graph; otherwise one node per commit, with `max_columns` one
more than the largest assigned column. -/
def build_commit_graph (commits : List (String × List String)) : CommitGraph :=
  if commits.isEmpty then
    CommitGraph.mk [] 0
  else
    let ids := commits.map Prod.fst
    let nodes := build_graph_go ids [] commits
    CommitGraph.mk nodes ((nodes.map (fun n => n.column)).foldl Nat.max 0 + 1)

theorem position_some_lt {α : Type} (p : α → Bool) :
    ∀ (l : List α) (i : Nat), position p l = some i → i < l.length := by
  intro l
  induction l with
  | nil => intro i h; cases h
  | cons a t ih =>
    intro i h
    by_cases hpa : p a
    · simp [position, hpa] at h
      simp only [List.length_cons]
      omega
    · simp [position, hpa] at h
      obtain ⟨j, hj, rfl⟩ := h
      have := ih j hj
      simp only [List.length_cons]
      omega

theorem position_some_get {α : Type} (p : α → Bool) :
    ∀ (l : List α) (i : Nat), position p l = some i →
      ∃ a, l.get? i = some a ∧ p a = true := by
  intro l
  induction l with
  | nil => intro i h; cases h
  | cons a t ih =>
    intro i h
    by_cases hpa : p a
    · simp [position, hpa] at h
      exact ⟨a, by simp [← h], hpa⟩
    · simp [position, hpa] at h
      obtain ⟨j, hj, rfl⟩ := h
      obtain ⟨b, hb, hpb⟩ := ih j hj
      exact ⟨b, by simpa using hb, hpb⟩

theorem position_some_min {α : Type} (p : α → Bool) :
    ∀ (l : List α) (i : Nat), position p l = some i →
      ∀ j, j < i → ∀ a, l.get? j = some a → p a = false := by
  intro l
  induction l with
  | nil => intro i h; cases h
  | cons a t ih =>
    intro i h
    by_cases hpa : p a
    · simp [position, hpa] at h
      intro j hj b hb
      omega
    · simp [position, hpa] at h
      obtain ⟨j', hj', rfl⟩ := h
      intro j hj b hb
      match j with
      | 0 =>
        rw [List.get?_cons_zero] at hb
        cases hb
        exact Bool.eq_false_iff.mpr hpa
      | k + 1 =>
        rw [List.get?_cons_succ] at hb
        exact ih j' hj' k (by omega) b hb

theorem position_none_all {α : Type} (p : α → Bool) :
    ∀ (l : List α), position p l = none → ∀ a ∈ l, p a = false := by
  intro l
  induction l with
  | nil => intro _ a ha; cases ha
  | cons a t ih =>
    intro h b hb
    by_cases hpa : p a
    · simp [position, hpa] at h
    · simp only [position, hpa, Bool.false_eq_true, if_false, Option.map_eq_none'] at h
      cases hb with
      | head => exact Bool.eq_false_iff.mpr hpa
      | tail _ hb => exact ih h b hb

theorem commit_to_row_some_lt (ids : List String) (id : String) (r : Nat) :
    commit_to_row ids id = some r → r < ids.length := by
  unfold commit_to_row
  cases hp : position (fun x => x == id) ids.reverse with
  | none => intro h; cases h
  | some j =>
    intro h
    cases h
    have hj := position_some_lt _ _ _ hp
    rw [List.length_reverse] at hj
    omega

theorem process_parents_conn_spec (ids : List String) (column : Nat) :
    ∀ (parents : List String) (i : Nat) (active : List (Option String)),
      ∀ conn ∈ (process_parents ids column i active parents).1,
        conn.from_column = column ∧ conn.to_row < ids.length := by
  intro parents
  induction parents with
  | nil =>
    intro i active conn hc
    simp only [process_parents] at hc
    cases hc
  | cons pid rest ih =>
    intro i active conn hc
    simp only [process_parents] at hc
    cases hr : commit_to_row ids pid with
    | some r =>
      rw [hr] at hc
      rcases List.mem_cons.mp hc with rfl | hc
      · exact ⟨rfl, commit_to_row_some_lt ids pid r hr⟩
      · exact ih (i + 1) _ conn hc
    | none =>
      rw [hr] at hc
      exact ih (i + 1) _ conn hc

theorem build_graph_go_conn_spec (ids : List String) :
    ∀ (commits : List (String × List String)) (active : List (Option String)),
      ∀ node ∈ build_graph_go ids active commits,
        ∀ conn ∈ node.connections,
          conn.from_column = node.column ∧ conn.to_row < ids.length := by
  intro commits
  induction commits with
  | nil =>
    intro active node hn
    simp only [build_graph_go] at hn
    cases hn
  | cons c rest ih =>
    intro active node hn
    obtain ⟨cid, parents⟩ := c
    simp only [build_graph_go] at hn
    rcases List.mem_cons.mp hn with rfl | hn
    · intro conn hc
      exact process_parents_conn_spec ids _ parents 0 _ conn hc
    · exact ih _ node hn

/-- C6: every connection produced by `build_commit_graph` points at a
row inside the input window — `to_row` is the index of a commit id
present in the input list. -/
theorem C6_connection_locality :
    ∀ (commits : List (String × List String)),
      ∀ node ∈ (build_commit_graph commits).nodes,
        ∀ conn ∈ node.connections, conn.to_row < commits.length := by
  intro commits node hn conn hc
  unfold build_commit_graph at hn
  by_cases he : commits.isEmpty
  · rw [if_pos he] at hn
    exact absurd hn (List.not_mem_nil node)
  · rw [if_neg he] at hn
    have h := (build_graph_go_conn_spec (commits.map Prod.fst) commits [] node hn conn hc).2
    simpa [List.length_map] using h

/-- C6 witness: the connection of the node for commit "A" in the
two-commit window [("A", parents ["B"]), ("B", parents [])]. -/
theorem C6_connection_locality_witness :
    (GraphConnection.mk 0 0 1 false).to_row <
      ([("A", ["B"]), ("B", [])] : List (String × List String)).length :=
  C6_connection_locality [("A", ["B"]), ("B", [])]
    (GraphNode.mk "A" 0 [GraphConnection.mk 0 0 1 false]) (by decide)
    (GraphConnection.mk 0 0 1 false) (by decide)

/-- C9: every connection of a graph node originates at that node's own
column: `from_column` always equals the node's `column`. -/
theorem C9_connection_from_column :
    ∀ (commits : List (String × List String)),
      ∀ node ∈ (build_commit_graph commits).nodes,
        ∀ conn ∈ node.connections, conn.from_column = node.column := by
  intro commits node hn conn hc
  unfold build_commit_graph at hn
  by_cases he : commits.isEmpty
  · rw [if_pos he] at hn
    exact absurd hn (List.not_mem_nil node)
  · rw [if_neg he] at hn
    exact (build_graph_go_conn_spec (commits.map Prod.fst) commits [] node hn conn hc).1

/-- C9 witness: the same concrete two-commit window. -/
theorem C9_connection_from_column_witness :
    (GraphConnection.mk 0 0 1 false).from_column =
      (GraphNode.mk "A" 0 [GraphConnection.mk 0 0 1 false]).column :=
  C9_connection_from_column [("A", ["B"]), ("B", [])]
    (GraphNode.mk "A" 0 [GraphConnection.mk 0 0 1 false]) (by decide)
    (GraphConnection.mk 0 0 1 false) (by decide)

theorem find_column_spec (active : List (Option String)) (id : String) :
    ((∃ j, active.get? j = some (some id)) →
      active.get? (find_column_for_commit active id).1 = some (some id) ∧
        ∀ j < (find_column_for_commit active id).1, active.get? j ≠ some (some id)) ∧
    ((¬∃ j, active.get? j = some (some id)) → (∃ j, active.get? j = some none) →
      active.get? (find_column_for_commit active id).1 = some none ∧
        ∀ j < (find_column_for_commit active id).1, active.get? j ≠ some none) ∧
    ((¬∃ j, active.get? j = some (some id)) → (¬∃ j, active.get? j = some none) →
      (find_column_for_commit active id).1 = active.length) := by
  cases h1 : position (fun c => c == some id) active with
  | some i =>
    have hc : (find_column_for_commit active id).1 = i := by
      unfold find_column_for_commit
      rw [h1]
    obtain ⟨a, ha, hpa⟩ := position_some_get _ _ _ h1
    rw [beq_iff_eq] at hpa
    subst hpa
    refine ⟨fun _ => ⟨by rw [hc]; exact ha, ?_⟩,
      fun hno _ => absurd ⟨i, ha⟩ hno, fun hno _ => absurd ⟨i, ha⟩ hno⟩
    intro j hj hcontra
    rw [hc] at hj
    have h := position_some_min _ _ _ h1 j hj _ hcontra
    simp at h
  | none =>
    have hno : ¬∃ j, active.get? j = some (some id) := by
      rintro ⟨j, hj⟩
      have h := position_none_all _ _ h1 (some id) (List.get?_mem hj)
      simp at h
    cases h2 : position Option.isNone active with
    | some i =>
      have hc : (find_column_for_commit active id).1 = i := by
        unfold find_column_for_commit
        rw [h1, h2]
      obtain ⟨a, ha, hpa⟩ := position_some_get _ _ _ h2
      have ha' : active.get? i = some none := by
        cases a with
        | none => exact ha
        | some x => simp [Option.isNone] at hpa
      refine ⟨fun hres => absurd hres hno, fun _ _ => ⟨by rw [hc]; exact ha', ?_⟩,
        fun _ hnf => absurd ⟨i, ha'⟩ hnf⟩
      intro j hj hcontra
      rw [hc] at hj
      have h := position_some_min _ _ _ h2 j hj none hcontra
      simp [Option.isNone] at h
    | none =>
      have hc : (find_column_for_commit active id).1 = active.length := by
        unfold find_column_for_commit
        rw [h1, h2]
      have hnf : ¬∃ j, active.get? j = some none := by
        rintro ⟨j, hj⟩
        have h := position_none_all _ _ h2 none (List.get?_mem hj)
        simp [Option.isNone] at h
      exact ⟨fun hres => absurd hres hno, fun _ hfree => absurd hfree hnf, fun _ _ => hc⟩

/-- C7: the linear three-commit window lays out as three nodes in
column 0 with `max_columns = 1`; and in general a commit's column is
the column already reserving its id if one exists, else the first free
column, else a newly appended column. -/
theorem C7_column_assignment :
    build_commit_graph [("C3", ["C2"]), ("C2", ["C1"]), ("C1", [])] =
      CommitGraph.mk
        [GraphNode.mk "C3" 0 [GraphConnection.mk 0 0 1 false],
         GraphNode.mk "C2" 0 [GraphConnection.mk 0 0 2 false],
         GraphNode.mk "C1" 0 []] 1 ∧
    ∀ (active : List (Option String)) (id : String),
      ((∃ j, active.get? j = some (some id)) →
        active.get? (find_column_for_commit active id).1 = some (some id) ∧
          ∀ j < (find_column_for_commit active id).1, active.get? j ≠ some (some id)) ∧
      ((¬∃ j, active.get? j = some (some id)) → (∃ j, active.get? j = some none) →
        active.get? (find_column_for_commit active id).1 = some none ∧
          ∀ j < (find_column_for_commit active id).1, active.get? j ≠ some none) ∧
      ((¬∃ j, active.get? j = some (some id)) → (¬∃ j, active.get? j = some none) →
        (find_column_for_commit active id).1 = active.length) :=
  ⟨by decide, fun active id => find_column_spec active id⟩

/-- C7 witness: a column already reserving the commit id is reused. -/
theorem C7_column_assignment_witness :
    ([none, some "z"] : List (Option String)).get?
        (find_column_for_commit [none, some "z"] "z").1 = some (some "z") :=
  ((C7_column_assignment.2 [none, some "z"] "z").1 ⟨1, rfl⟩).1

/-! ## Conflict marker parsing

`parse_file_conflicts` (merge.rs, lines 788-858) scans a file's
lines once with two flags (`in_conflict`, `in_ours`), collecting
conflict regions and the two full non-conflicted reconstructions.
Rust's `str::starts_with` is modelled by `line_starts_with` (character
prefix, which for valid UTF-8 strings coincides with Rust's byte
prefix).
-/

/-- Mirrors Rust `str::starts_with`. -/
def line_starts_with (l m : String) : Bool :=
  m.toList.isPrefixOf l.toList

/-- Mirrors `ConflictRegion` (merge.rs): 1-based inclusive lines. -/
structure ConflictRegion where
  start_line : Nat
  end_line : Nat
  ours_content : String
  theirs_content : String
deriving DecidableEq, Repr

/-- Mirrors `FileConflictInfo` (merge.rs). -/
structure FileConflictInfo where
  file_path : String
  conflicts : List ConflictRegion
  ours_full : String
  theirs_full : String
  original_content : String
deriving DecidableEq, Repr

/-- The mutable state of the scanning loop in `parse_file_conflicts`. -/
structure ConflictScan where
  conflicts : List ConflictRegion
  ours_lines : List String
  theirs_lines : List String
  in_conflict : Bool
  in_ours : Bool
  conflict_start : Nat
  current_ours : List String
  current_theirs : List String
deriving DecidableEq, Repr

/-- One iteration of the `while i < lines.len()` loop of
`parse_file_conflicts`; `i` is the 0-based index of `line`. -/
def conflict_scan_step (st : ConflictScan) (i : Nat) (line : String) : ConflictScan :=
  if line_starts_with line "<<<<<<<" then
    { st with
      in_conflict := true
      in_ours := true
      conflict_start := i + 1
      current_ours := []
      current_theirs := [] }
  else if line_starts_with line "=======" && st.in_conflict then
    { st with in_ours := false }
  else if line_starts_with line ">>>>>>>" && st.in_conflict then
    { st with
      conflicts := st.conflicts ++
        [ConflictRegion.mk st.conflict_start (i + 1)
          (String.intercalate "\n" st.current_ours)
          (String.intercalate "\n" st.current_theirs)]
      ours_lines := st.ours_lines ++ st.current_ours
      theirs_lines := st.theirs_lines ++ st.current_theirs
      in_conflict := false
      in_ours := false }
  else if st.in_conflict then
    if st.in_ours then { st with current_ours := st.current_ours ++ [line] }
    else { st with current_theirs := st.current_theirs ++ [line] }
  else
    { st with
      ours_lines := st.ours_lines ++ [line]
      theirs_lines := st.theirs_lines ++ [line] }

/-- The whole scanning loop. -/
def conflict_scan_go (st : ConflictScan) (i : Nat) : List String → ConflictScan
  | [] => st
  | l :: ls => conflict_scan_go (conflict_scan_step st i l) (i + 1) ls

/-- The initial loop state of `parse_file_conflicts`. -/
def conflict_scan_init : ConflictScan :=
  ConflictScan.mk [] [] [] false false 0 [] []

/-- Mirrors `parse_file_conflicts` (merge.rs) after the filesystem
read: scan `content.lines()`, then join the reconstructions with a
line feed. -/
def parse_file_conflicts (file_path content : String) : FileConflictInfo :=
  let lines := (rust_lines content.toList).map String.mk
  let final := conflict_scan_go conflict_scan_init 0 lines
  FileConflictInfo.mk file_path final.conflicts
    (String.intercalate "\n" final.ours_lines)
    (String.intercalate "\n" final.theirs_lines)
    content

/-! ### Well-formed conflict content

A file "containing only well-formed conflict blocks" is a sequence of
chunks: runs of ordinary lines (none opening a conflict) and conflict
blocks (an opening marker line, the "ours" lines, a separator line,
the "theirs" lines, a closing marker line, with no interior line
itself a marker line).  These spec-side definitions give the expected
regions and reconstructions of such content.
-/

/-- A chunk of file content: a run of ordinary lines, or one complete
marker-delimited conflict block. -/
inductive ConflictChunk where
  | plain : List String → ConflictChunk
  | block : String → List String → String → List String → String → ConflictChunk
deriving DecidableEq, Repr

/-- The literal lines of a chunk. -/
def render_chunk : ConflictChunk → List String
  | .plain ls => ls
  | .block o os s ts c => o :: (os ++ (s :: (ts ++ [c])))

/-- The literal lines of a chunk sequence. -/
def render_chunks : List ConflictChunk → List String
  | [] => []
  | ch :: cs => render_chunk ch ++ render_chunks cs

/-- A line that is not any of the three conflict marker lines. -/
def no_marker_line (l : String) : Bool :=
  !(line_starts_with l "<<<<<<<") && !(line_starts_with l "=======") &&
    !(line_starts_with l ">>>>>>>")

/-- Well-formedness of one chunk. -/
def chunk_wf : ConflictChunk → Bool
  | .plain ls => ls.all (fun l => !(line_starts_with l "<<<<<<<"))
  | .block o os s ts c =>
      line_starts_with o "<<<<<<<" && line_starts_with s "=======" &&
        line_starts_with c ">>>>>>>" && os.all no_marker_line && ts.all no_marker_line

/-- The expected "ours" reconstruction: ordinary lines kept, each
conflict span replaced by its "ours" lines. -/
def chunk_ours : List ConflictChunk → List String
  | [] => []
  | .plain ls :: cs => ls ++ chunk_ours cs
  | .block _ os _ _ _ :: cs => os ++ chunk_ours cs

/-- The expected "theirs" reconstruction. -/
def chunk_theirs : List ConflictChunk → List String
  | [] => []
  | .plain ls :: cs => ls ++ chunk_theirs cs
  | .block _ _ _ ts _ :: cs => ts ++ chunk_theirs cs

/-- The expected conflict regions, with 1-based inclusive line ranges
covering exactly the marker-delimited spans; `i` is the 0-based line
index where the remaining chunks start. -/
def chunk_regions : Nat → List ConflictChunk → List ConflictRegion
  | _, [] => []
  | i, .plain ls :: cs => chunk_regions (i + ls.length) cs
  | i, .block _ os _ ts _ :: cs =>
      ConflictRegion.mk (i + 1) (i + os.length + ts.length + 3)
          (String.intercalate "\n" os) (String.intercalate "\n" ts) ::
        chunk_regions (i + os.length + ts.length + 3) cs

theorem line_starts_with_head (m : String) (c : Char) (r : List Char) {l : String}
    (hm : m.toList = c :: r) (h : line_starts_with l m = true) :
    ∃ t, l.toList = c :: t := by
  unfold line_starts_with at h
  rw [List.isPrefixOf_iff_prefix] at h
  obtain ⟨t, ht⟩ := h
  rw [hm] at ht
  exact ⟨r ++ t, by rw [← ht]; simp⟩

theorem sep_not_open {l : String} (h : line_starts_with l "=======" = true) :
    line_starts_with l "<<<<<<<" = false := by
  by_contra hcon
  rw [Bool.not_eq_false] at hcon
  obtain ⟨t1, h1⟩ :=
    line_starts_with_head "=======" '=' ['=', '=', '=', '=', '=', '='] (by decide) h
  obtain ⟨t2, h2⟩ :=
    line_starts_with_head "<<<<<<<" '<' ['<', '<', '<', '<', '<', '<'] (by decide) hcon
  rw [h1] at h2
  injection h2 with h3 _
  exact absurd h3 (by decide)

theorem close_not_open {l : String} (h : line_starts_with l ">>>>>>>" = true) :
    line_starts_with l "<<<<<<<" = false := by
  by_contra hcon
  rw [Bool.not_eq_false] at hcon
  obtain ⟨t1, h1⟩ :=
    line_starts_with_head ">>>>>>>" '>' ['>', '>', '>', '>', '>', '>'] (by decide) h
  obtain ⟨t2, h2⟩ :=
    line_starts_with_head "<<<<<<<" '<' ['<', '<', '<', '<', '<', '<'] (by decide) hcon
  rw [h1] at h2
  injection h2 with h3 _
  exact absurd h3 (by decide)

theorem close_not_sep {l : String} (h : line_starts_with l ">>>>>>>" = true) :
    line_starts_with l "=======" = false := by
  by_contra hcon
  rw [Bool.not_eq_false] at hcon
  obtain ⟨t1, h1⟩ :=
    line_starts_with_head ">>>>>>>" '>' ['>', '>', '>', '>', '>', '>'] (by decide) h
  obtain ⟨t2, h2⟩ :=
    line_starts_with_head "=======" '=' ['=', '=', '=', '=', '=', '='] (by decide) hcon
  rw [h1] at h2
  injection h2 with h3 _
  exact absurd h3 (by decide)

theorem scan_go_append (xs : List String) : ∀ (ys : List String) (st : ConflictScan) (i : Nat),
    conflict_scan_go st i (xs ++ ys) =
      conflict_scan_go (conflict_scan_go st i xs) (i + xs.length) ys := by
  induction xs with
  | nil => intro ys st i; simp [conflict_scan_go]
  | cons x xs ih =>
    intro ys st i
    simp only [List.cons_append, conflict_scan_go, List.length_cons]
    rw [show i + (xs.length + 1) = i + 1 + xs.length from by omega]
    exact ih ys _ (i + 1)

theorem step_open (st : ConflictScan) (i : Nat) (l : String)
    (hl : line_starts_with l "<<<<<<<" = true) :
    conflict_scan_step st i l =
      { st with
        in_conflict := true
        in_ours := true
        conflict_start := i + 1
        current_ours := []
        current_theirs := [] } := by
  simp [conflict_scan_step, hl]

theorem step_normal (st : ConflictScan) (i : Nat) (l : String)
    (hst : st.in_conflict = false)
    (hl : line_starts_with l "<<<<<<<" = false) :
    conflict_scan_step st i l =
      { st with
        ours_lines := st.ours_lines ++ [l]
        theirs_lines := st.theirs_lines ++ [l] } := by
  simp [conflict_scan_step, hl, hst]

theorem step_sep (st : ConflictScan) (i : Nat) (l : String)
    (hst : st.in_conflict = true)
    (hl : line_starts_with l "=======" = true) :
    conflict_scan_step st i l = { st with in_ours := false } := by
  simp [conflict_scan_step, sep_not_open hl, hl, hst]

theorem step_close (st : ConflictScan) (i : Nat) (l : String)
    (hst : st.in_conflict = true)
    (hl : line_starts_with l ">>>>>>>" = true) :
    conflict_scan_step st i l =
      { st with
        conflicts := st.conflicts ++
          [ConflictRegion.mk st.conflict_start (i + 1)
            (String.intercalate "\n" st.current_ours)
            (String.intercalate "\n" st.current_theirs)]
        ours_lines := st.ours_lines ++ st.current_ours
        theirs_lines := st.theirs_lines ++ st.current_theirs
        in_conflict := false
        in_ours := false } := by
  simp [conflict_scan_step, close_not_open hl, close_not_sep hl, hl, hst]

theorem step_acc (st : ConflictScan) (i : Nat) (l : String)
    (hst : st.in_conflict = true)
    (hl : no_marker_line l = true) :
    conflict_scan_step st i l =
      if st.in_ours then { st with current_ours := st.current_ours ++ [l] }
      else { st with current_theirs := st.current_theirs ++ [l] } := by
  simp only [no_marker_line, Bool.and_eq_true, Bool.not_eq_true'] at hl
  obtain ⟨⟨h1, h2⟩, h3⟩ := hl
  simp [conflict_scan_step, h1, h2, h3, hst]

theorem scan_go_plain (ls : List String) : ∀ (st : ConflictScan) (i : Nat),
    st.in_conflict = false →
    (∀ l ∈ ls, line_starts_with l "<<<<<<<" = false) →
    conflict_scan_go st i ls =
      { st with
        ours_lines := st.ours_lines ++ ls
        theirs_lines := st.theirs_lines ++ ls } := by
  induction ls with
  | nil =>
    intro st i _ _
    cases st
    simp [conflict_scan_go]
  | cons l ls ih =>
    intro st i hst hall
    simp only [conflict_scan_go]
    rw [step_normal st i l hst (hall l (List.mem_cons_self l ls))]
    have hih := ih
      { st with
        ours_lines := st.ours_lines ++ [l]
        theirs_lines := st.theirs_lines ++ [l] }
      (i + 1) hst (fun l' hl' => hall l' (List.mem_cons_of_mem l hl'))
    rw [hih]
    cases st
    simp

theorem scan_go_ours (ls : List String) : ∀ (st : ConflictScan) (i : Nat),
    st.in_conflict = true → st.in_ours = true →
    (∀ l ∈ ls, no_marker_line l = true) →
    conflict_scan_go st i ls = { st with current_ours := st.current_ours ++ ls } := by
  induction ls with
  | nil =>
    intro st i _ _ _
    cases st
    simp [conflict_scan_go]
  | cons l ls ih =>
    intro st i hc ho hall
    simp only [conflict_scan_go]
    rw [step_acc st i l hc (hall l (List.mem_cons_self l ls)), if_pos ho]
    have hih := ih { st with current_ours := st.current_ours ++ [l] }
      (i + 1) hc ho (fun l' hl' => hall l' (List.mem_cons_of_mem l hl'))
    rw [hih]
    cases st
    simp

theorem scan_go_theirs (ls : List String) : ∀ (st : ConflictScan) (i : Nat),
    st.in_conflict = true → st.in_ours = false →
    (∀ l ∈ ls, no_marker_line l = true) →
    conflict_scan_go st i ls = { st with current_theirs := st.current_theirs ++ ls } := by
  induction ls with
  | nil =>
    intro st i _ _ _
    cases st
    simp [conflict_scan_go]
  | cons l ls ih =>
    intro st i hc ho hall
    simp only [conflict_scan_go]
    rw [step_acc st i l hc (hall l (List.mem_cons_self l ls)), if_neg (by simp [ho])]
    have hih := ih { st with current_theirs := st.current_theirs ++ [l] }
      (i + 1) hc ho (fun l' hl' => hall l' (List.mem_cons_of_mem l hl'))
    rw [hih]
    cases st
    simp

theorem scan_go_block (st : ConflictScan) (i : Nat) (o s c : String) (os ts : List String)
    (ho : line_starts_with o "<<<<<<<" = true)
    (hs : line_starts_with s "=======" = true)
    (hc : line_starts_with c ">>>>>>>" = true)
    (hos : ∀ l ∈ os, no_marker_line l = true)
    (hts : ∀ l ∈ ts, no_marker_line l = true) :
    conflict_scan_go st i (o :: (os ++ (s :: (ts ++ [c])))) =
      { st with
        conflicts := st.conflicts ++
          [ConflictRegion.mk (i + 1) (i + os.length + ts.length + 3)
            (String.intercalate "\n" os) (String.intercalate "\n" ts)]
        ours_lines := st.ours_lines ++ os
        theirs_lines := st.theirs_lines ++ ts
        in_conflict := false
        in_ours := false
        conflict_start := i + 1
        current_ours := os
        current_theirs := ts } := by
  simp only [conflict_scan_go]
  rw [step_open st i o ho]
  rw [scan_go_append os (s :: (ts ++ [c])) _ (i + 1)]
  rw [scan_go_ours os _ (i + 1) rfl rfl hos]
  simp only [conflict_scan_go]
  rw [step_sep _ _ s rfl hs]
  rw [scan_go_append ts [c] _ _]
  rw [scan_go_theirs ts _ _ rfl rfl hts]
  simp only [conflict_scan_go]
  rw [step_close _ _ c rfl hc]
  cases st
  simp only [List.nil_append]
  rw [show i + 1 + os.length + 1 + ts.length + 1 = i + os.length + ts.length + 3 from by omega]

theorem step_keeps (st : ConflictScan) (i : Nat) (l : String)
    (hst : st.in_conflict = true)
    (hl : line_starts_with l ">>>>>>>" = false) :
    (conflict_scan_step st i l).conflicts = st.conflicts ∧
    (conflict_scan_step st i l).ours_lines = st.ours_lines ∧
    (conflict_scan_step st i l).theirs_lines = st.theirs_lines ∧
    (conflict_scan_step st i l).in_conflict = true := by
  unfold conflict_scan_step
  by_cases h1 : line_starts_with l "<<<<<<<" = true
  · simp [h1]
  · rw [Bool.not_eq_true] at h1
    by_cases h2 : line_starts_with l "=======" = true
    · simp [h1, h2, hst]
    · rw [Bool.not_eq_true] at h2
      by_cases h3 : st.in_ours = true
      · simp [h1, h2, h3, hl, hst]
      · rw [Bool.not_eq_true] at h3
        simp [h1, h2, h3, hl, hst]

theorem scan_go_no_close (ls : List String) : ∀ (st : ConflictScan) (i : Nat),
    st.in_conflict = true →
    (∀ l ∈ ls, line_starts_with l ">>>>>>>" = false) →
    (conflict_scan_go st i ls).conflicts = st.conflicts ∧
    (conflict_scan_go st i ls).ours_lines = st.ours_lines ∧
    (conflict_scan_go st i ls).theirs_lines = st.theirs_lines := by
  induction ls with
  | nil =>
    intro st i _ _
    exact ⟨rfl, rfl, rfl⟩
  | cons l ls ih =>
    intro st i hst hall
    simp only [conflict_scan_go]
    obtain ⟨k1, k2, k3, k4⟩ := step_keeps st i l hst (hall l (List.mem_cons_self l ls))
    obtain ⟨g1, g2, g3⟩ :=
      ih (conflict_scan_step st i l) (i + 1) k4
        (fun l' hl' => hall l' (List.mem_cons_of_mem l hl'))
    exact ⟨g1.trans k1, g2.trans k2, g3.trans k3⟩

theorem scan_go_chunks (cs : List ConflictChunk) : ∀ (st : ConflictScan) (i : Nat),
    st.in_conflict = false →
    (∀ ch ∈ cs, chunk_wf ch = true) →
    (conflict_scan_go st i (render_chunks cs)).conflicts =
      st.conflicts ++ chunk_regions i cs ∧
    (conflict_scan_go st i (render_chunks cs)).ours_lines =
      st.ours_lines ++ chunk_ours cs ∧
    (conflict_scan_go st i (render_chunks cs)).theirs_lines =
      st.theirs_lines ++ chunk_theirs cs ∧
    (conflict_scan_go st i (render_chunks cs)).in_conflict = false := by
  induction cs with
  | nil =>
    intro st i hst _
    simp [render_chunks, conflict_scan_go, chunk_regions, chunk_ours, chunk_theirs, hst]
  | cons ch cs ih =>
    intro st i hst hwf
    simp only [render_chunks]
    rw [scan_go_append (render_chunk ch) (render_chunks cs) st i]
    cases ch with
    | plain ls =>
      have hp : ∀ l ∈ ls, line_starts_with l "<<<<<<<" = false := by
        have h := hwf _ (List.mem_cons_self _ _)
        simp only [chunk_wf, List.all_eq_true, Bool.not_eq_true'] at h
        exact h
      rw [show render_chunk (ConflictChunk.plain ls) = ls from rfl]
      rw [scan_go_plain ls st i hst hp]
      have hih := ih
        { st with
          ours_lines := st.ours_lines ++ ls
          theirs_lines := st.theirs_lines ++ ls }
        (i + ls.length) hst (fun ch' h' => hwf ch' (List.mem_cons_of_mem _ h'))
      obtain ⟨h1, h2, h3, h4⟩ := hih
      refine ⟨h1, ?_, ?_, h4⟩
      · rw [h2]
        simp [chunk_ours, List.append_assoc]
      · rw [h3]
        simp [chunk_theirs, List.append_assoc]
    | block o os s ts c =>
      have h := hwf _ (List.mem_cons_self _ _)
      simp only [chunk_wf, Bool.and_eq_true, List.all_eq_true] at h
      obtain ⟨⟨⟨⟨ho, hs⟩, hc⟩, hos⟩, hts⟩ := h
      rw [show render_chunk (ConflictChunk.block o os s ts c) =
        o :: (os ++ (s :: (ts ++ [c]))) from rfl]
      rw [scan_go_block st i o s c os ts ho hs hc hos hts]
      rw [show i + (o :: (os ++ (s :: (ts ++ [c])))).length =
        i + os.length + ts.length + 3 from by simp; omega]
      have hih := ih
        { st with
          conflicts := st.conflicts ++
            [ConflictRegion.mk (i + 1) (i + os.length + ts.length + 3)
              (String.intercalate "\n" os) (String.intercalate "\n" ts)]
          ours_lines := st.ours_lines ++ os
          theirs_lines := st.theirs_lines ++ ts
          in_conflict := false
          in_ours := false
          conflict_start := i + 1
          current_ours := os
          current_theirs := ts }
        (i + os.length + ts.length + 3) rfl
        (fun ch' h' => hwf ch' (List.mem_cons_of_mem _ h'))
      obtain ⟨h1, h2, h3, h4⟩ := hih
      refine ⟨?_, ?_, ?_, h4⟩
      · rw [h1]
        simp [chunk_regions, List.append_assoc]
      · rw [h2]
        simp [chunk_ours, List.append_assoc]
      · rw [h3]
        simp [chunk_theirs, List.append_assoc]

theorem chunk_regions_bounds (cs : List ConflictChunk) : ∀ i : Nat,
    (∀ r ∈ chunk_regions i cs, i < r.start_line ∧ r.start_line < r.end_line) ∧
    List.Pairwise (fun a b => a.end_line < b.start_line) (chunk_regions i cs) := by
  induction cs with
  | nil =>
    intro i
    exact ⟨fun r hr => absurd hr (List.not_mem_nil r), List.Pairwise.nil⟩
  | cons ch cs ih =>
    intro i
    cases ch with
    | plain ls =>
      obtain ⟨hb, hp⟩ := ih (i + ls.length)
      refine ⟨fun r hr => ?_, hp⟩
      have h := hb r hr
      exact ⟨by omega, h.2⟩
    | block o os s ts c =>
      obtain ⟨hb, hp⟩ := ih (i + os.length + ts.length + 3)
      constructor
      · intro r hr
        simp only [chunk_regions] at hr
        rcases List.mem_cons.mp hr with rfl | hr
        · exact ⟨by show i < i + 1; omega, by show i + 1 < i + os.length + ts.length + 3; omega⟩
        · have h := hb r hr
          exact ⟨by omega, h.2⟩
      · simp only [chunk_regions]
        refine List.pairwise_cons.mpr ⟨?_, hp⟩
        intro r hr
        exact (hb r hr).1

/-- C2: for file content that is a sequence of ordinary-line runs and
well-formed conflict blocks, `parse_file_conflicts` returns exactly
the expected regions (1-based inclusive ranges covering exactly the
marker-delimited spans, in order and without overlap), and the two
full reconstructions are the original lines with each conflict span
replaced by its "ours" (resp. "theirs") lines — every line outside a
conflict appearing verbatim in both. -/
theorem C2_conflict_roundtrip (path content : String) (cs : List ConflictChunk)
    (hlines : (rust_lines content.toList).map String.mk = render_chunks cs)
    (hwf : ∀ ch ∈ cs, chunk_wf ch = true) :
    (parse_file_conflicts path content).conflicts = chunk_regions 0 cs ∧
    (parse_file_conflicts path content).ours_full =
      String.intercalate "\n" (chunk_ours cs) ∧
    (parse_file_conflicts path content).theirs_full =
      String.intercalate "\n" (chunk_theirs cs) ∧
    List.Pairwise (fun a b => a.end_line < b.start_line)
      (parse_file_conflicts path content).conflicts ∧
    ∀ r ∈ (parse_file_conflicts path content).conflicts, r.start_line < r.end_line := by
  obtain ⟨h1, h2, h3, _⟩ := scan_go_chunks cs conflict_scan_init 0 rfl hwf
  have hpf : parse_file_conflicts path content =
      FileConflictInfo.mk path
        (conflict_scan_go conflict_scan_init 0 (render_chunks cs)).conflicts
        (String.intercalate "\n"
          (conflict_scan_go conflict_scan_init 0 (render_chunks cs)).ours_lines)
        (String.intercalate "\n"
          (conflict_scan_go conflict_scan_init 0 (render_chunks cs)).theirs_lines)
        content := by
    simp only [parse_file_conflicts]
    rw [hlines]
  rw [hpf]
  obtain ⟨hb, hpw⟩ := chunk_regions_bounds cs 0
  have hc1 : (conflict_scan_go conflict_scan_init 0 (render_chunks cs)).conflicts =
      chunk_regions 0 cs := h1
  refine ⟨hc1, ?_, ?_, ?_, ?_⟩
  · exact congrArg (String.intercalate "\n") h2
  · exact congrArg (String.intercalate "\n") h3
  · show List.Pairwise _ (conflict_scan_go conflict_scan_init 0 (render_chunks cs)).conflicts
    rw [hc1]
    exact hpw
  · intro r hr
    rw [show (FileConflictInfo.mk path
        (conflict_scan_go conflict_scan_init 0 (render_chunks cs)).conflicts
        (String.intercalate "\n"
          (conflict_scan_go conflict_scan_init 0 (render_chunks cs)).ours_lines)
        (String.intercalate "\n"
          (conflict_scan_go conflict_scan_init 0 (render_chunks cs)).theirs_lines)
        content).conflicts =
      chunk_regions 0 cs from hc1] at hr
    exact (hb r hr).2

/-- C2 witness: a file with one ordinary line, one conflict block, and
one trailing ordinary line. -/
theorem C2_conflict_roundtrip_witness :
    (parse_file_conflicts "f.txt"
        "keep\n<<<<<<< HEAD\na\n=======\nx\n>>>>>>> other\ntail").conflicts =
      chunk_regions 0
        [ConflictChunk.plain ["keep"],
         ConflictChunk.block "<<<<<<< HEAD" ["a"] "=======" ["x"] ">>>>>>> other",
         ConflictChunk.plain ["tail"]] ∧
    (parse_file_conflicts "f.txt"
        "keep\n<<<<<<< HEAD\na\n=======\nx\n>>>>>>> other\ntail").ours_full =
      String.intercalate "\n"
        (chunk_ours
          [ConflictChunk.plain ["keep"],
           ConflictChunk.block "<<<<<<< HEAD" ["a"] "=======" ["x"] ">>>>>>> other",
           ConflictChunk.plain ["tail"]]) ∧
    (parse_file_conflicts "f.txt"
        "keep\n<<<<<<< HEAD\na\n=======\nx\n>>>>>>> other\ntail").theirs_full =
      String.intercalate "\n"
        (chunk_theirs
          [ConflictChunk.plain ["keep"],
           ConflictChunk.block "<<<<<<< HEAD" ["a"] "=======" ["x"] ">>>>>>> other",
           ConflictChunk.plain ["tail"]]) := by
  have h := C2_conflict_roundtrip "f.txt"
    "keep\n<<<<<<< HEAD\na\n=======\nx\n>>>>>>> other\ntail"
    [ConflictChunk.plain ["keep"],
     ConflictChunk.block "<<<<<<< HEAD" ["a"] "=======" ["x"] ">>>>>>> other",
     ConflictChunk.plain ["tail"]]
    (by decide) (by decide)
  exact ⟨h.1, h.2.1, h.2.2.1⟩

/-- C3: a file with exactly one conflict block whose "ours" side is
the lines "a","b" and whose "theirs" side is "x","y" yields exactly
one region with `ours_content = "a\nb"`, `theirs_content = "x\ny"`,
`start_line` the 1-based line of the opening marker, `end_line` the
1-based line of the closing marker, and reconstructions keeping all
surrounding lines unchanged. -/
theorem C3_single_conflict_block (path content : String) (pre post : List String)
    (o s c : String)
    (hpre : ∀ l ∈ pre, line_starts_with l "<<<<<<<" = false)
    (hpost : ∀ l ∈ post, line_starts_with l "<<<<<<<" = false)
    (ho : line_starts_with o "<<<<<<<" = true)
    (hs : line_starts_with s "=======" = true)
    (hc : line_starts_with c ">>>>>>>" = true)
    (hlines : (rust_lines content.toList).map String.mk =
      pre ++ (o :: "a" :: "b" :: s :: "x" :: "y" :: c :: post)) :
    (parse_file_conflicts path content).conflicts =
      [ConflictRegion.mk (pre.length + 1) (pre.length + 7) "a\nb" "x\ny"] ∧
    (parse_file_conflicts path content).ours_full =
      String.intercalate "\n" (pre ++ "a" :: "b" :: post) ∧
    (parse_file_conflicts path content).theirs_full =
      String.intercalate "\n" (pre ++ "x" :: "y" :: post) := by
  have hwf : ∀ ch ∈ [ConflictChunk.plain pre,
      ConflictChunk.block o ["a", "b"] s ["x", "y"] c, ConflictChunk.plain post],
      chunk_wf ch = true := by
    intro ch hch
    simp only [List.mem_cons, List.not_mem_nil, or_false] at hch
    rcases hch with rfl | rfl | rfl
    · simp only [chunk_wf, List.all_eq_true, Bool.not_eq_true']
      exact hpre
    · simp only [chunk_wf, Bool.and_eq_true]
      exact ⟨⟨⟨⟨ho, hs⟩, hc⟩, by decide⟩, by decide⟩
    · simp only [chunk_wf, List.all_eq_true, Bool.not_eq_true']
      exact hpost
  have hr : render_chunks [ConflictChunk.plain pre,
      ConflictChunk.block o ["a", "b"] s ["x", "y"] c, ConflictChunk.plain post] =
      pre ++ (o :: "a" :: "b" :: s :: "x" :: "y" :: c :: post) := by
    simp [render_chunks, render_chunk]
  obtain ⟨h1, h2, h3, _⟩ := scan_go_chunks
    [ConflictChunk.plain pre,
     ConflictChunk.block o ["a", "b"] s ["x", "y"] c, ConflictChunk.plain post]
    conflict_scan_init 0 rfl hwf
  have hpf : parse_file_conflicts path content =
      FileConflictInfo.mk path
        (conflict_scan_go conflict_scan_init 0 (render_chunks
          [ConflictChunk.plain pre,
           ConflictChunk.block o ["a", "b"] s ["x", "y"] c,
           ConflictChunk.plain post])).conflicts
        (String.intercalate "\n"
          (conflict_scan_go conflict_scan_init 0 (render_chunks
            [ConflictChunk.plain pre,
             ConflictChunk.block o ["a", "b"] s ["x", "y"] c,
             ConflictChunk.plain post])).ours_lines)
        (String.intercalate "\n"
          (conflict_scan_go conflict_scan_init 0 (render_chunks
            [ConflictChunk.plain pre,
             ConflictChunk.block o ["a", "b"] s ["x", "y"] c,
             ConflictChunk.plain post])).theirs_lines)
        content := by
    simp only [parse_file_conflicts]
    rw [hlines, ← hr]
  have hreg : chunk_regions 0
      [ConflictChunk.plain pre,
       ConflictChunk.block o ["a", "b"] s ["x", "y"] c, ConflictChunk.plain post] =
      [ConflictRegion.mk (pre.length + 1) (pre.length + 7) "a\nb" "x\ny"] := by
    simp only [chunk_regions]
    rw [show (0 : Nat) + pre.length = pre.length from by omega]
    rw [show pre.length + (["a", "b"] : List String).length +
      (["x", "y"] : List String).length + 3 = pre.length + 7 from by simp]
    rfl
  have hours : chunk_ours
      [ConflictChunk.plain pre,
       ConflictChunk.block o ["a", "b"] s ["x", "y"] c, ConflictChunk.plain post] =
      pre ++ "a" :: "b" :: post := by
    simp [chunk_ours]
  have hth : chunk_theirs
      [ConflictChunk.plain pre,
       ConflictChunk.block o ["a", "b"] s ["x", "y"] c, ConflictChunk.plain post] =
      pre ++ "x" :: "y" :: post := by
    simp [chunk_theirs]
  rw [hpf]
  refine ⟨?_, ?_, ?_⟩
  · exact h1.trans hreg
  · exact (congrArg (String.intercalate "\n") h2).trans (congrArg _ hours)
  · exact (congrArg (String.intercalate "\n") h3).trans (congrArg _ hth)

/-- C3 witness: the concrete file "pre / block / post". -/
theorem C3_single_conflict_block_witness :
    (parse_file_conflicts "f.txt"
        "pre\n<<<<<<< HEAD\na\nb\n=======\nx\ny\n>>>>>>> branch\npost").conflicts =
      [ConflictRegion.mk 2 8 "a\nb" "x\ny"] ∧
    (parse_file_conflicts "f.txt"
        "pre\n<<<<<<< HEAD\na\nb\n=======\nx\ny\n>>>>>>> branch\npost").ours_full =
      "pre\na\nb\npost" ∧
    (parse_file_conflicts "f.txt"
        "pre\n<<<<<<< HEAD\na\nb\n=======\nx\ny\n>>>>>>> branch\npost").theirs_full =
      "pre\nx\ny\npost" := by
  have h := C3_single_conflict_block "f.txt"
    "pre\n<<<<<<< HEAD\na\nb\n=======\nx\ny\n>>>>>>> branch\npost"
    ["pre"] ["post"] "<<<<<<< HEAD" "=======" ">>>>>>> branch"
    (by decide) (by decide) (by decide) (by decide) (by decide) (by decide)
  exact ⟨h.1, h.2.1.trans (by decide), h.2.2.trans (by decide)⟩

/-- C10: when an opening marker is never followed by a closing marker,
the unterminated block produces no region, and every line from the
opening marker on (including lines after a separator) is dropped from
both reconstructions — the outputs are exactly those of the
well-formed prefix. -/
theorem C10_unterminated_conflict_dropped (path content : String)
    (cs : List ConflictChunk) (o : String) (rest : List String)
    (hwf : ∀ ch ∈ cs, chunk_wf ch = true)
    (ho : line_starts_with o "<<<<<<<" = true)
    (hrest : ∀ l ∈ rest, line_starts_with l ">>>>>>>" = false)
    (hlines : (rust_lines content.toList).map String.mk =
      render_chunks cs ++ (o :: rest)) :
    (parse_file_conflicts path content).conflicts = chunk_regions 0 cs ∧
    (parse_file_conflicts path content).ours_full =
      String.intercalate "\n" (chunk_ours cs) ∧
    (parse_file_conflicts path content).theirs_full =
      String.intercalate "\n" (chunk_theirs cs) := by
  obtain ⟨h1, h2, h3, _⟩ := scan_go_chunks cs conflict_scan_init 0 rfl hwf
  have hpf : parse_file_conflicts path content =
      FileConflictInfo.mk path
        (conflict_scan_go conflict_scan_init 0 (render_chunks cs ++ (o :: rest))).conflicts
        (String.intercalate "\n"
          (conflict_scan_go conflict_scan_init 0
            (render_chunks cs ++ (o :: rest))).ours_lines)
        (String.intercalate "\n"
          (conflict_scan_go conflict_scan_init 0
            (render_chunks cs ++ (o :: rest))).theirs_lines)
        content := by
    simp only [parse_file_conflicts]
    rw [hlines]
  rw [hpf]
  rw [scan_go_append (render_chunks cs) (o :: rest) conflict_scan_init 0]
  simp only [conflict_scan_go]
  rw [step_open _ _ o ho]
  obtain ⟨g1, g2, g3⟩ := scan_go_no_close rest
    { conflict_scan_go conflict_scan_init 0 (render_chunks cs) with
      in_conflict := true
      in_ours := true
      conflict_start := 0 + (render_chunks cs).length + 1
      current_ours := []
      current_theirs := [] }
    (0 + (render_chunks cs).length + 1) rfl hrest
  refine ⟨?_, ?_, ?_⟩
  · exact g1.trans h1
  · exact congrArg (String.intercalate "\n") (g2.trans h2)
  · exact congrArg (String.intercalate "\n") (g3.trans h3)

/-- C10 witness: one kept prefix line, then an unterminated block with
lines on both sides of a separator. -/
theorem C10_unterminated_conflict_dropped_witness :
    (parse_file_conflicts "f.txt"
        "keep\n<<<<<<< HEAD\nlost\n=======\nalso lost").conflicts = [] ∧
    (parse_file_conflicts "f.txt"
        "keep\n<<<<<<< HEAD\nlost\n=======\nalso lost").ours_full = "keep" ∧
    (parse_file_conflicts "f.txt"
        "keep\n<<<<<<< HEAD\nlost\n=======\nalso lost").theirs_full = "keep" := by
  have h := C10_unterminated_conflict_dropped "f.txt"
    "keep\n<<<<<<< HEAD\nlost\n=======\nalso lost"
    [ConflictChunk.plain ["keep"]] "<<<<<<< HEAD" ["lost", "=======", "also lost"]
    (by decide) (by decide) (by decide) (by decide)
  exact ⟨h.1.trans (by decide), h.2.1.trans (by decide), h.2.2.trans (by decide)⟩
